import Mathlib

/-!
Verification of the event-pipeline core of the `construct` Matrix homeserver
against its specification.  Definitions are shallow embeddings of the C++
sources (`src/modules/m_room_auth.cc`, `src/ircd/matrix.cc`, `src/ircd/db.cc`);
each definition cites the function it embeds.  Definitions marked
`Modelled from the spec:` embed repository code whose implementation is not
part of the provided sources (only headers or callers are), faithfully to the
specification text.
-/

namespace Construct

/-- An event, per the `ircd::m::event` json tuple
(`include/ircd/m/event/event.h`).  Fields carry `Option String`: `none` models
an undefined JSON member (ircd `json::get` yields an empty view for it, while
`json::at` throws).  `membership` models `m::membership(event)`, the
`membership` string of `content` with an empty result when absent. -/
structure Event where
  type : Option String := none
  sender : Option String := none
  state_key : Option String := none
  room_id : Option String := none
  event_id : Option String := none
  auth_events : List String := []
  membership : String := ""
  deriving Repr, DecidableEq

/-- ircd `json::get` semantics on an optional member: the value, or an empty
string when the member is undefined. -/
def jget (o : Option String) : String :=
  o.getD ""

/-- Exceptions crossing the auth rules: `room::auth::FAIL` with its reason, or
a `json::at` failure on an undefined member (not caught by the auth engine). -/
inductive Caught where
  | fail (reason : String)
  | badJson (field : String)
  deriving Repr, DecidableEq

instance {ε α : Type} [DecidableEq ε] [DecidableEq α] :
    DecidableEq (Except ε α) := fun x y =>
  match x, y with
  | .ok a, .ok b =>
    if h : a = b then .isTrue (by rw [h]) else .isFalse (by simp [h])
  | .error a, .error b =>
    if h : a = b then .isTrue (by rw [h]) else .isFalse (by simp [h])
  | .ok _, .error _ => .isFalse (by simp)
  | .error _, .ok _ => .isFalse (by simp)

/-- ircd `json::at` semantics: the value, or a thrown `badJson` when the
member is undefined. -/
def atF (field : String) (o : Option String) : Except Caught String :=
  match o with
  | some v => .ok v
  | none => .error (.badJson field)

/-- The auth verdict pair `(data.allow, data.fail)` of
`room::auth::hookdata`. -/
abbrev Verdict := Bool × Option String

/-- `ircd::m::room::auth::hookdata` (constructed at
`src/modules/m_room_auth.cc:507-556`): the event under test is paired with the
supplied auth-event vector and the five selector lookups computed by `find`,
which returns the first entry of the vector satisfying the predicate. -/
structure Hookdata where
  auth_events : List Event
  auth_create : Option Event
  auth_power : Option Event
  auth_join_rules : Option Event
  auth_member_target : Option Event
  auth_member_sender : Option Event
  deriving Repr, DecidableEq

/-- The `hookdata` constructor (`src/modules/m_room_auth.cc:507-556`): each
selector is `find` applied in order over the auth-event vector. -/
def Hookdata.make (e : Event) (auth : List Event) : Hookdata where
  auth_events := auth
  auth_create := auth.find? fun a => jget a.type = "m.room.create"
  auth_power := auth.find? fun a => jget a.type = "m.room.power_levels"
  auth_join_rules := auth.find? fun a => jget a.type = "m.room.join_rules"
  auth_member_target := auth.find? fun a =>
    jget a.type = "m.room.member" ∧ jget a.state_key = jget e.state_key
  auth_member_sender := auth.find? fun a =>
    jget a.type = "m.room.member" ∧ jget a.state_key = jget e.sender

/-- The duplicate test of rule 2(a) for entry `i` of the auth-event vector
(`src/modules/m_room_auth.cc:342-363`): some other entry `j` has the same
`(type, state_key)` pair under `json::get` semantics. -/
def rule2_dup (all : List Event) (i : Nat) (a : Event) : Bool :=
  all.enum.any fun jb =>
    jb.1 ≠ i ∧ jget a.type = jget jb.2.type ∧
      jget a.state_key = jget jb.2.state_key

/-- Rule 2(b) selector admissibility (`src/modules/m_room_auth.cc:375-403`):
the entry continues the loop when its type is create, power_levels or
join_rules, or it is a member event whose state key matches the event sender
or the event state key; every other entry throws. -/
def rule2_selector_ok (e a : Event) : Bool :=
  jget a.type = "m.room.create" ∨
  jget a.type = "m.room.power_levels" ∨
  jget a.type = "m.room.join_rules" ∨
  (jget a.type = "m.room.member" ∧
    (jget e.sender = jget a.state_key ∨ jget e.state_key = jget a.state_key))

/-- The rule 2 loop body over the suffix of the auth-event vector starting at
index `i` (`src/modules/m_room_auth.cc:342-404`): per entry, the duplicate
check throws first, then the same-room check (via `json::at` on `room_id`),
then the selector check. -/
def rule2_go (e : Event) (all : List Event) :
    Nat → List Event → Except Caught Unit
  | _, [] => .ok ()
  | i, a :: rest =>
    if rule2_dup all i a then
      .error (.fail "Duplicate (type,state_key) in auth_events.")
    else
      match atF "room_id" a.room_id with
      | .error c => .error c
      | .ok ra =>
        match atF "room_id" e.room_id with
        | .error c => .error c
        | .ok re =>
          if ra ≠ re then
            .error (.fail "Auth event is not in the same room.")
          else if rule2_selector_ok e a then
            rule2_go e all (i + 1) rest
          else
            .error (.fail "Reference in auth_events is not an auth_event.")

/-- `ircd::m::check_room_auth_rule_2` (`src/modules/m_room_auth.cc:335-405`). -/
def check_room_auth_rule_2 (e : Event) (d : Hookdata) : Except Caught Unit :=
  rule2_go e d.auth_events 0 d.auth_events

/-- `ircd::m::check_room_auth_rule_3` (`src/modules/m_room_auth.cc:407-419`). -/
def check_room_auth_rule_3 (d : Hookdata) : Except Caught Unit :=
  if d.auth_create.isNone then
    .error (.fail "Missing m.room.create in auth_events.")
  else .ok ()

/-- `ircd::m::check_room_auth_rule_6` (`src/modules/m_room_auth.cc:421-434`):
only a member event for the sender present in the auth set is consulted. -/
def check_room_auth_rule_6 (d : Hookdata) : Except Caught Unit :=
  match d.auth_member_sender with
  | some a =>
    if a.membership ≠ "join" then
      .error (.fail "sender is not joined to room.")
    else .ok ()
  | none => .ok ()

/-- The power-level admissibility test of rule 8.  `m::room::power` is not
part of the provided sources; the predicate is abstract, receiving the event
and the hook data (whose `auth_power` and `auth_create` the source passes to
the `power` constructor). -/
abbrev PowerFn := Event → Hookdata → Bool

/-- `ircd::m::check_room_auth_rule_8` (`src/modules/m_room_auth.cc:436-454`):
`json::at` reads of `sender` and `type` feed the power query; an inadmissible
result throws. -/
def check_room_auth_rule_8 (pw : PowerFn) (e : Event) (d : Hookdata) :
    Except Caught Unit :=
  match atF "sender" e.sender with
  | .error c => .error c
  | .ok _ =>
    match atF "type" e.type with
    | .error c => .error c
    | .ok _ =>
      if pw e d then .ok ()
      else .error (.fail "sender has insufficient power for event type.")

/-- `ircd::m::check_room_auth_rule_9` (`src/modules/m_room_auth.cc:456-470`). -/
def check_room_auth_rule_9 (e : Event) : Except Caught Unit :=
  if (jget e.state_key).startsWith "@" then
    match atF "state_key" e.state_key with
    | .error c => .error c
    | .ok sk =>
      match atF "sender" e.sender with
      | .error c => .error c
      | .ok s =>
        if sk ≠ s then
          .error (.fail "sender cannot set another users mxid in a state_key.")
        else .ok ()
  else .ok ()

/-- A per-type sub-hook: it may throw (`exceptions` is enabled on the hook
site) or return with the verdict it left in the hook data. -/
abbrev SubHook := Event → Hookdata → Except Caught Verdict

/-- Modelled from the spec: the six type-specific sub-hooks to which
`m.room.create`, `m.room.aliases`, `m.room.member`, `m.room.third_party_invite`,
`m.room.power_levels` and `m.room.redaction` dispatch.  The hook
implementations and the `hook::site` machinery are not part of the provided
sources. -/
structure Hooks where
  create : SubHook
  aliases : SubHook
  member : SubHook
  third_party_invite : SubHook
  power_levels : SubHook
  redaction : SubHook

/-- The `room_auth_hook` site call (`room.auth`, exceptions enabled):
dispatch on the event type to the matching sub-hook; with no matching hook
the data is left untouched (no verdict, no failure). -/
def hookSite (h : Hooks) (e : Event) (d : Hookdata) : Except Caught Verdict :=
  if jget e.type = "m.room.create" then h.create e d
  else if jget e.type = "m.room.aliases" then h.aliases e d
  else if jget e.type = "m.room.member" then h.member e d
  else if jget e.type = "m.room.third_party_invite" then h.third_party_invite e d
  else if jget e.type = "m.room.power_levels" then h.power_levels e d
  else if jget e.type = "m.room.redaction" then h.redaction e d
  else .ok (false, none)

/-- The body of `ircd::m::room::auth::check(std::nothrow_t, const event &,
hookdata &)` before its `catch` clause (`src/modules/m_room_auth.cc:248-323`):
the create branch runs only the per-type hook; otherwise rules 2 and 3, the
aliases and member branches, rule 6, the third-party-invite branch, rules 8
and 9, the power-levels and redaction branches, the catchall hook call for
remaining types, and finally the allow verdict. -/
def checkBody (h : Hooks) (pw : PowerFn) (e : Event) (d : Hookdata) :
    Except Caught Verdict :=
  if jget e.type = "m.room.create" then hookSite h e d
  else match check_room_auth_rule_2 e d with
  | .error c => .error c
  | .ok _ =>
  match check_room_auth_rule_3 d with
  | .error c => .error c
  | .ok _ =>
  if jget e.type = "m.room.aliases" then hookSite h e d
  else if jget e.type = "m.room.member" then hookSite h e d
  else match check_room_auth_rule_6 d with
  | .error c => .error c
  | .ok _ =>
  if jget e.type = "m.room.third_party_invite" then hookSite h e d
  else match check_room_auth_rule_8 pw e d with
  | .error c => .error c
  | .ok _ =>
  match check_room_auth_rule_9 e with
  | .error c => .error c
  | .ok _ =>
  if jget e.type = "m.room.power_levels" then hookSite h e d
  else if jget e.type = "m.room.redaction" then hookSite h e d
  else match hookSite h e d with
  | .error c => .error c
  | .ok _ => .ok (true, none)

/-- `ircd::m::room::auth::check(std::nothrow_t, const event &, hookdata &)`
with its `catch (const FAIL &)` clause (`src/modules/m_room_auth.cc:324-329`):
a thrown `FAIL` becomes the verdict `(false, reason)`; any other exception
escapes. -/
def checkHook (h : Hooks) (pw : PowerFn) (e : Event) (d : Hookdata) :
    Except Caught Verdict :=
  match checkBody h pw e d with
  | .ok v => .ok v
  | .error (.fail r) => .ok (false, some r)
  | .error (.badJson f) => .error (.badJson f)

/-- `checkHook` with the escaping exception named by its field, as the
caller observes it. -/
def checkAuth (h : Hooks) (pw : PowerFn) (e : Event) (d : Hookdata) :
    Except String Verdict :=
  match checkHook h pw e d with
  | .ok v => .ok v
  | .error (.fail r) => .ok (false, some r)
  | .error (.badJson f) => .error f

/-- One admission step as the specification presents the rule list: a common
numbered rule that either continues or rejects, a per-type sub-hook whose
verdict ends the run, or a rule that does not apply to this event type. -/
inductive Step where
  | chk (r : Except Caught Unit)
  | sub (v : Except Caught Verdict)
  | nop

/-- Run admission steps in their numerical order with short-circuit: the
first failing rule rejects with its typed reason and no later rule runs, a
sub-hook returns its verdict without running later rules, and an exhausted
rule list is rule 12, allow. -/
def runSteps : List Step → Except Caught Verdict
  | [] => .ok (true, none)
  | .nop :: rest => runSteps rest
  | .sub v :: _ => v
  | .chk r :: rest =>
    match r with
    | .error c => .error c
    | .ok _ => runSteps rest

/-- The admission rules in the fixed numerical order 1-11 as the
specification lists them (rule 12, allow, is the empty tail of the run);
per-type entries apply only at their type. -/
def admissionRules (h : Hooks) (pw : PowerFn) (e : Event) (d : Hookdata) :
    List Step :=
  [if jget e.type = "m.room.create" then .sub (hookSite h e d) else .nop,
   .chk (check_room_auth_rule_2 e d),
   .chk (check_room_auth_rule_3 d),
   if jget e.type = "m.room.aliases" then .sub (hookSite h e d) else .nop,
   if jget e.type = "m.room.member" then .sub (hookSite h e d) else .nop,
   .chk (check_room_auth_rule_6 d),
   if jget e.type = "m.room.third_party_invite" then .sub (hookSite h e d)
     else .nop,
   .chk (check_room_auth_rule_8 pw e d),
   .chk (check_room_auth_rule_9 e),
   if jget e.type = "m.room.power_levels" then .sub (hookSite h e d) else .nop,
   if jget e.type = "m.room.redaction" then .sub (hookSite h e d) else .nop]

/-- C1: the admission check runs the rules in the fixed numerical order with
short-circuit.  An `m.room.create` event runs only its per-type hook and
returns that verdict; otherwise rules 2 and 3 run first, then the aliases and
member sub-hooks (each ending the run with the hook verdict), rule 6, the
third-party-invite sub-hook, rules 8 and 9, the power-levels and redaction
sub-hooks, and otherwise the event is allowed; the first failing rule rejects
the event with its typed reason and no later rule runs, which is what
`runSteps` over the ordered rule list expresses. -/
theorem check_runs_rules_in_order (h : Hooks) (pw : PowerFn) (e : Event)
    (d : Hookdata) :
    checkBody h pw e d = runSteps (admissionRules h pw e d) := by
  by_cases h1 : jget e.type = "m.room.create"
  · simp [checkBody, admissionRules, runSteps, h1]
  · cases r2 : check_room_auth_rule_2 e d with
    | error c => simp [checkBody, admissionRules, runSteps, h1, r2]
    | ok _ =>
      cases r3 : check_room_auth_rule_3 d with
      | error c => simp [checkBody, admissionRules, runSteps, h1, r2, r3]
      | ok _ =>
        by_cases h2 : jget e.type = "m.room.aliases"
        · simp [checkBody, admissionRules, runSteps, h1, h2, r2, r3]
        · by_cases h3 : jget e.type = "m.room.member"
          · simp [checkBody, admissionRules, runSteps, h1, h2, h3, r2, r3]
          · cases r6 : check_room_auth_rule_6 d with
            | error c =>
              simp [checkBody, admissionRules, runSteps, h1, h2, h3, r2, r3, r6]
            | ok _ =>
              by_cases h4 : jget e.type = "m.room.third_party_invite"
              · simp [checkBody, admissionRules, runSteps,
                  h1, h2, h3, h4, r2, r3, r6]
              · cases r8 : check_room_auth_rule_8 pw e d with
                | error c =>
                  simp [checkBody, admissionRules, runSteps,
                    h1, h2, h3, h4, r2, r3, r6, r8]
                | ok _ =>
                  cases r9 : check_room_auth_rule_9 e with
                  | error c =>
                    simp [checkBody, admissionRules, runSteps,
                      h1, h2, h3, h4, r2, r3, r6, r8, r9]
                  | ok _ =>
                    by_cases h5 : jget e.type = "m.room.power_levels"
                    · simp [checkBody, admissionRules, runSteps,
                        h1, h2, h3, h4, h5, r2, r3, r6, r8, r9]
                    · by_cases h6 : jget e.type = "m.room.redaction"
                      · simp [checkBody, admissionRules, runSteps,
                          h1, h2, h3, h4, h5, h6, r2, r3, r6, r8, r9]
                      · simp [checkBody, admissionRules, runSteps, hookSite,
                          h1, h2, h3, h4, h5, h6, r2, r3, r6, r8, r9]

/-- Two auth-set entries carry the same `(type, state_key)` pair. -/
def SamePair (a b : Event) : Prop :=
  jget a.type = jget b.type ∧ jget a.state_key = jget b.state_key

/-- An allowed auth selector as the claim words it: create, power_levels,
join_rules, member-of-sender, member-of-target, and, when `tpi` is set,
third_party_invite. -/
def AllowedSelectorSpec (tpi : Bool) (e a : Event) : Prop :=
  jget a.type = "m.room.create" ∨
  jget a.type = "m.room.power_levels" ∨
  jget a.type = "m.room.join_rules" ∨
  (jget a.type = "m.room.member" ∧
    (jget e.sender = jget a.state_key ∨ jget e.state_key = jget a.state_key)) ∨
  (tpi = true ∧ jget a.type = "m.room.third_party_invite")

/-- Rule 2 rejection as the claim words it: the auth-event set contains two
entries with the same `(type, state_key)` pair, or an entry from another
room, or an entry that is not an allowed auth selector. -/
def Rule2RejectsSpec (tpi : Bool) (e : Event) (as : List Event) : Prop :=
  (¬ as.Pairwise fun a b => ¬ SamePair a b) ∨
  (∃ a ∈ as, jget a.room_id ≠ jget e.room_id) ∨
  (∃ a ∈ as, ¬ AllowedSelectorSpec tpi e a)

/-- The failure condition of the rule 2 loop body at index `j`. -/
def entryFails (e : Event) (all : List Event) (j : Nat) (a : Event) : Prop :=
  rule2_dup all j a = true ∨ jget a.room_id ≠ jget e.room_id ∨
    rule2_selector_ok e a = false

theorem rule2_dup_iff (all : List Event) (i : Nat) (a : Event) :
    rule2_dup all i a = true ↔
      ∃ (j : Nat) (_ : j < all.length), j ≠ i ∧ SamePair a all[j] := by
  unfold rule2_dup SamePair
  simp only [List.any_eq_true, decide_eq_true_eq, List.mem_enum_iff_getElem?]
  constructor
  · rintro ⟨⟨j, b⟩, hget, hne, ht, hsk⟩
    have hj : j < all.length := by
      by_contra hcon
      rw [List.getElem?_eq_none (by omega)] at hget
      exact Option.noConfusion hget
    rw [List.getElem?_eq_getElem hj] at hget
    have hb : all[j] = b := Option.some_inj.1 hget
    exact ⟨j, hj, hne, by rw [hb]; exact ⟨ht, hsk⟩⟩
  · rintro ⟨j, hj, hne, ht, hsk⟩
    exact ⟨⟨j, all[j]⟩, List.getElem?_eq_getElem hj, hne, ht, hsk⟩

theorem rule2_selector_ok_iff (e a : Event) :
    rule2_selector_ok e a = true ↔ AllowedSelectorSpec false e a := by
  unfold rule2_selector_ok AllowedSelectorSpec
  simp

theorem rule2_go_ok_iff (e : Event) (all : List Event)
    (hre : e.room_id.isSome) :
    ∀ (rest : List Event) (i : Nat), (∀ a ∈ rest, a.room_id.isSome) →
      (rule2_go e all i rest = .ok () ↔
        ∀ (k : Nat) (hk : k < rest.length), ¬ entryFails e all (i + k) rest[k])
  | [], i, _ => by simp [rule2_go]
  | a :: rest, i, hras => by
    obtain ⟨ra, hra⟩ := Option.isSome_iff_exists.1 (hras a (by simp))
    obtain ⟨re, hrev⟩ := Option.isSome_iff_exists.1 hre
    have ih := rule2_go_ok_iff e all hre rest (i + 1)
      (fun b hb => hras b (by simp [hb]))
    by_cases hdup : rule2_dup all i a = true
    · have hstep : rule2_go e all i (a :: rest) =
          .error (.fail "Duplicate (type,state_key) in auth_events.") := by
        simp [rule2_go, hdup]
      rw [hstep]
      constructor
      · intro hcon; exact Except.noConfusion hcon
      · intro hall
        exfalso
        apply hall 0 (by simp)
        simp only [Nat.add_zero, List.getElem_cons_zero]
        exact Or.inl hdup
    · by_cases hroom : ra = re
      · by_cases hsel : rule2_selector_ok e a = true
        · have hstep : rule2_go e all i (a :: rest) =
              rule2_go e all (i + 1) rest := by
            simp [rule2_go, hdup, atF, hra, hrev, hroom, hsel]
          rw [hstep, ih]
          constructor
          · intro hall k hk
            match k with
            | 0 =>
              simp only [Nat.add_zero, List.getElem_cons_zero]
              simp [entryFails, hdup, hsel, jget, hra, hrev, hroom]
            | Nat.succ k =>
              have hk' : k < rest.length := by
                simpa using Nat.lt_of_succ_lt_succ hk
              have heq : i + (k + 1) = (i + 1) + k := by omega
              rw [List.getElem_cons_succ, heq]
              exact hall k hk'
          · intro hall k hk
            have heq : (i + 1) + k = i + (k + 1) := by omega
            have h1 := hall (k + 1) (by simpa using Nat.succ_lt_succ hk)
            rw [List.getElem_cons_succ] at h1
            rw [heq]
            exact h1
        · have hstep : rule2_go e all i (a :: rest) =
              .error (.fail "Reference in auth_events is not an auth_event.") := by
            simp [rule2_go, hdup, atF, hra, hrev, hroom, hsel]
          rw [hstep]
          constructor
          · intro hcon; exact Except.noConfusion hcon
          · intro hall
            exfalso
            apply hall 0 (by simp)
            simp only [Nat.add_zero, List.getElem_cons_zero]
            exact Or.inr (Or.inr (by simp [hsel]))
      · have hstep : rule2_go e all i (a :: rest) =
            .error (.fail "Auth event is not in the same room.") := by
          simp [rule2_go, hdup, atF, hra, hrev, hroom]
        rw [hstep]
        constructor
        · intro hcon; exact Except.noConfusion hcon
        · intro hall
          exfalso
          apply hall 0 (by simp)
          simp only [Nat.add_zero, List.getElem_cons_zero]
          refine Or.inr (Or.inl ?_)
          simp [jget, hra, hrev]
          exact hroom

/-- C2, amended: rule 2 rejects exactly when the supplied auth-event set has
duplicate `(type, state_key)` pairs, an entry from another room, or an entry
that is not an allowed selector, where the allowed selector types are create,
power_levels, join_rules, member-of-sender and member-of-target
(`m.room.third_party_invite` entries are not allowed). -/
theorem rule2_rejects_iff (e : Event) (d : Hookdata)
    (hre : e.room_id.isSome)
    (hras : ∀ a ∈ d.auth_events, a.room_id.isSome) :
    check_room_auth_rule_2 e d ≠ .ok () ↔
      Rule2RejectsSpec false e d.auth_events := by
  unfold check_room_auth_rule_2
  rw [ne_eq, rule2_go_ok_iff e d.auth_events hre d.auth_events 0 hras]
  unfold Rule2RejectsSpec
  constructor
  · intro hno
    push_neg at hno
    obtain ⟨k, hk, hfail⟩ := hno
    rw [Nat.zero_add] at hfail
    rcases hfail with hdup | hroom | hsel
    · left
      rw [rule2_dup_iff] at hdup
      obtain ⟨j, hj, hne, hpair⟩ := hdup
      intro hpw
      rw [List.pairwise_iff_get] at hpw
      rcases Nat.lt_or_ge k j with hlt | hge
      · exact hpw ⟨k, hk⟩ ⟨j, hj⟩ hlt hpair
      · have hjk : j < k := by omega
        exact hpw ⟨j, hj⟩ ⟨k, hk⟩ hjk ⟨hpair.1.symm, hpair.2.symm⟩
    · right; left
      exact ⟨d.auth_events[k], List.getElem_mem hk, hroom⟩
    · right; right
      refine ⟨d.auth_events[k], List.getElem_mem hk, ?_⟩
      rw [← rule2_selector_ok_iff]
      simp [hsel]
  · intro hspec hall
    simp only [Nat.zero_add] at hall
    rcases hspec with hdup | ⟨a, ha, hroom⟩ | ⟨a, ha, hsel⟩
    · apply hdup
      rw [List.pairwise_iff_get]
      intro i j hij hpair
      have := hall i (by omega)
      apply this
      left
      rw [rule2_dup_iff]
      exact ⟨j, j.isLt, by omega, by simpa using hpair⟩
    · obtain ⟨k, hk, hak⟩ := List.mem_iff_getElem.1 ha
      exact (hall k hk) (by rw [hak]; right; left; exact hroom)
    · obtain ⟨k, hk, hak⟩ := List.mem_iff_getElem.1 ha
      refine (hall k hk) ?_
      rw [hak]
      right; right
      rw [← rule2_selector_ok_iff] at hsel
      simp at hsel
      exact hsel

instance (a b : Event) : Decidable (SamePair a b) := by
  unfold SamePair; infer_instance

instance (tpi : Bool) (e a : Event) : Decidable (AllowedSelectorSpec tpi e a) := by
  unfold AllowedSelectorSpec; infer_instance

instance (tpi : Bool) (e : Event) (as : List Event) :
    Decidable (Rule2RejectsSpec tpi e as) := by
  unfold Rule2RejectsSpec; infer_instance

/-- A plain message event in room `!r:x` sent by `@a:x`. -/
def msgEvent : Event :=
  { type := some "m.room.message", sender := some "@a:x",
    room_id := some "!r:x", event_id := some "$m:x" }

/-- The create event of room `!r:x`. -/
def createEvent : Event :=
  { type := some "m.room.create", state_key := some "", sender := some "@a:x",
    room_id := some "!r:x", event_id := some "$c:x" }

/-- A third-party-invite state event in room `!r:x`. -/
def tpiEvent : Event :=
  { type := some "m.room.third_party_invite", state_key := some "tok",
    sender := some "@a:x", room_id := some "!r:x", event_id := some "$i:x" }

/-- A member event recording that `@a:x` has left room `!r:x`. -/
def leaveMember : Event :=
  { type := some "m.room.member", state_key := some "@a:x",
    sender := some "@a:x", room_id := some "!r:x", membership := "leave",
    event_id := some "$l:x" }

/-- Witness for `rule2_rejects_iff`: a concrete auth set with a duplicated
`(type, state_key)` pair, on which the equivalence is instantiated. -/
theorem rule2_rejects_iff_witness :
    check_room_auth_rule_2 msgEvent
        (Hookdata.make msgEvent [createEvent, createEvent]) ≠ .ok () ↔
      Rule2RejectsSpec false msgEvent
        (Hookdata.make msgEvent [createEvent, createEvent]).auth_events :=
  rule2_rejects_iff msgEvent (Hookdata.make msgEvent [createEvent, createEvent])
    (by decide) (by decide)

/-- C2 counterexample: the code rejects an auth set containing a single
`m.room.third_party_invite` entry from the same room, although the claim
counts third_party_invite among the allowed auth selector types and so
predicts no rejection. -/
theorem rule2_third_party_invite_counterexample :
    check_room_auth_rule_2 msgEvent (Hookdata.make msgEvent [tpiEvent]) ≠
        .ok () ∧
      ¬ Rule2RejectsSpec true msgEvent [tpiEvent] := by
  decide

/-- Sub-hooks that accept every event without touching the verdict. -/
def trivialHooks : Hooks where
  create := fun _ _ => .ok (true, none)
  aliases := fun _ _ => .ok (true, none)
  member := fun _ _ => .ok (true, none)
  third_party_invite := fun _ _ => .ok (true, none)
  power_levels := fun _ _ => .ok (true, none)
  redaction := fun _ _ => .ok (true, none)

/-- A power query that admits every event. -/
def truePower : PowerFn := fun _ _ => true

/-- The membership the rule 6 check consults: the membership of the
auth-set member event whose state key is the event sender, when present. -/
def senderCurrentMembership (d : Hookdata) : Option String :=
  d.auth_member_sender.map Event.membership

/-- C3, amended: for an event that reaches rule 6 (type none of create,
aliases, member) after rules 2 and 3 pass, the check rejects with the rule 6
reason whenever the auth set contains an `m.room.member` event for the
sender whose membership is not `join`; when no such member event is present,
rule 6 does not reject. -/
theorem check_rejects_nonjoined_sender (h : Hooks) (pw : PowerFn) (e : Event)
    (d : Hookdata) (a : Event)
    (ht1 : jget e.type ≠ "m.room.create")
    (ht2 : jget e.type ≠ "m.room.aliases")
    (ht3 : jget e.type ≠ "m.room.member")
    (h2 : check_room_auth_rule_2 e d = .ok ())
    (h3 : check_room_auth_rule_3 d = .ok ())
    (ha : d.auth_member_sender = some a)
    (hm : a.membership ≠ "join") :
    checkAuth h pw e d = .ok (false, some "sender is not joined to room.") := by
  have h6 : check_room_auth_rule_6 d =
      .error (.fail "sender is not joined to room.") := by
    simp [check_room_auth_rule_6, ha, hm]
  simp [checkAuth, checkHook, checkBody, ht1, ht2, ht3, h2, h3, h6]

/-- Witness for `check_rejects_nonjoined_sender`: a message event whose auth
set carries the create event and a `leave` member event for the sender is
rejected with the rule 6 reason. -/
theorem check_rejects_nonjoined_sender_witness :
    checkAuth trivialHooks truePower msgEvent
        (Hookdata.make msgEvent [createEvent, leaveMember]) =
      .ok (false, some "sender is not joined to room.") :=
  check_rejects_nonjoined_sender trivialHooks truePower msgEvent
    (Hookdata.make msgEvent [createEvent, leaveMember]) leaveMember
    (by decide) (by decide) (by decide) (by decide) (by decide)
    (by decide) (by decide)

/-- C3 counterexample: a message event whose auth set has no member event
for the sender at all — so the sender's current membership state is not
`join` — passes rule 6 and the whole check, although the claim predicts
rejection. -/
theorem rule6_absent_membership_counterexample :
    senderCurrentMembership (Hookdata.make msgEvent [createEvent]) ≠
        some "join" ∧
      checkAuth trivialHooks truePower msgEvent
          (Hookdata.make msgEvent [createEvent]) =
        .ok (true, none) := by
  decide

/-- Modelled from the spec: the environment the two-pass check reads.
`index` is the `_event_id` primary index (event_id to event_idx, 0 when
absent), `fetch` materializes a stored event by index (`event::fetch` with
its `valid` flag), `roomGet` is `room.get(std::nothrow, type, state_key)`,
the current state cell lookup returning 0 when the cell is absent. -/
structure Env where
  index : String → Nat
  fetch : Nat → Option Event
  roomGet : String → String → Nat

/-- One of `idxs[0..3]` (`src/modules/m_room_auth.cc:189-192`): the index of
the k-th `auth_events` reference when `count > k`, else 0. -/
def authRefIdx (env : Env) (refs : List String) (k : Nat) : Nat :=
  if k < refs.length then env.index (refs.getD k "") else 0

/-- The nine contingent indexes of
`ircd::m::room::auth::check(std::nothrow_t, const event &)`
(`src/modules/m_room_auth.cc:187-205`): the first four `auth_events`
references, then create, power_levels, member-of-sender, and conditionally
join_rules and member-of-target from the room's current state.  `json::at`
failures on `sender`, `type` or `state_key` escape. -/
def checkIdxs (env : Env) (e : Event) : Except Caught (List Nat) := do
  let s ← atF "sender" e.sender
  let t ← atF "type" e.type
  let idx8 ←
    if t = "m.room.member" then do
      let sk ← atF "state_key" e.state_key
      pure (if s ≠ sk then env.roomGet "m.room.member" sk else 0)
    else pure 0
  pure [authRefIdx env e.auth_events 0, authRefIdx env e.auth_events 1,
    authRefIdx env e.auth_events 2, authRefIdx env e.auth_events 3,
    env.roomGet "m.room.create" "", env.roomGet "m.room.power_levels" "",
    env.roomGet "m.room.member" s,
    if t = "m.room.member" ∧ (e.membership = "join" ∨ e.membership = "invite")
      then env.roomGet "m.room.join_rules" "" else 0,
    idx8]

/-- The nine fetches (`src/modules/m_room_auth.cc:207-210`): a nonzero index
is sought; `none` is an invalid fetch. -/
def checkAuths (env : Env) (e : Event) : Except Caught (List (Option Event)) :=
  (checkIdxs env e).map (List.map fun i => if i ≠ 0 then env.fetch i else none)

/-- The first pass's auth vector (`src/modules/m_room_auth.cc:212-216`): the
valid fetches among the first four, at most four of them. -/
def passOne (auths : List (Option Event)) : List Event :=
  ((auths.take 4).filterMap id).take 4

/-- The second pass's auth vector (`src/modules/m_room_auth.cc:231-233`):
the valid fetches among the five present-state lookups, at most four of
them. -/
def passTwo (auths : List (Option Event)) : List Event :=
  ((auths.drop 4).filterMap id).take 4

/-- `ircd::m::room::auth::check(std::nothrow_t, const event &)`
(`src/modules/m_room_auth.cc:160-246`): warn when more than four
`auth_events` references are present, run the hook check over the
event-supplied auth vector, and, unless it failed, again over the
present-state vector.  The boolean in the result records whether the
warning was logged. -/
def checkOuter (env : Env) (h : Hooks) (pw : PowerFn) (e : Event) :
    Except Caught (Verdict × Bool) := do
  let _ ← atF "room_id" e.room_id
  let warned := decide (4 < e.auth_events.length)
  let auths ← checkAuths env e
  let r1 ← checkHook h pw e (Hookdata.make e (passOne auths))
  if ¬ r1.1 ∨ r1.2.isSome then pure (r1, warned)
  else do
    let r2 ← checkHook h pw e (Hookdata.make e (passTwo auths))
    pure (r2, warned)

/-- The event with its `auth_events` list truncated to the first four
references. -/
def truncAuth (e : Event) : Event :=
  { e with auth_events := e.auth_events.take 4 }

/-- Equality of all event fields the check rules and sub-hooks read —
everything but `auth_events`. -/
def sameView (e₁ e₂ : Event) : Prop :=
  e₁.type = e₂.type ∧ e₁.sender = e₂.sender ∧ e₁.state_key = e₂.state_key ∧
    e₁.room_id = e₂.room_id ∧ e₁.event_id = e₂.event_id ∧
    e₁.membership = e₂.membership

/-- A sub-hook that reads only the event view, not `auth_events`. -/
def HookBlind (f : SubHook) : Prop :=
  ∀ e₁ e₂ d, sameView e₁ e₂ → f e₁ d = f e₂ d

/-- All six sub-hooks read only the event view. -/
def HooksBlind (h : Hooks) : Prop :=
  HookBlind h.create ∧ HookBlind h.aliases ∧ HookBlind h.member ∧
    HookBlind h.third_party_invite ∧ HookBlind h.power_levels ∧
    HookBlind h.redaction

/-- A power query that reads only the event view, not `auth_events`. -/
def PowerBlind (pw : PowerFn) : Prop :=
  ∀ e₁ e₂ d, sameView e₁ e₂ → pw e₁ d = pw e₂ d

theorem rule2_go_view (e₁ e₂ : Event) (hs : e₁.sender = e₂.sender)
    (hsk : e₁.state_key = e₂.state_key) (hr : e₁.room_id = e₂.room_id)
    (all : List Event) :
    ∀ (rest : List Event) (i : Nat),
      rule2_go e₁ all i rest = rule2_go e₂ all i rest
  | [], _ => rfl
  | a :: rest, i => by
    have hsel : rule2_selector_ok e₁ a = rule2_selector_ok e₂ a := by
      unfold rule2_selector_ok
      simp only [jget]
      rw [hs, hsk]
    unfold rule2_go
    rw [hr, hsel, rule2_go_view e₁ e₂ hs hsk hr all rest (i + 1)]

theorem checkHook_view (h : Hooks) (pw : PowerFn) (hb : HooksBlind h)
    (pb : PowerBlind pw) (e₁ e₂ : Event) (hv : sameView e₁ e₂)
    (d : Hookdata) : checkHook h pw e₁ d = checkHook h pw e₂ d := by
  obtain ⟨ht, hs, hsk, hr, hid, hm⟩ := hv
  have hv' : sameView e₁ e₂ := ⟨ht, hs, hsk, hr, hid, hm⟩
  have h2 : check_room_auth_rule_2 e₁ d = check_room_auth_rule_2 e₂ d := by
    unfold check_room_auth_rule_2
    exact rule2_go_view e₁ e₂ hs hsk hr d.auth_events d.auth_events 0
  have h8 : check_room_auth_rule_8 pw e₁ d = check_room_auth_rule_8 pw e₂ d := by
    unfold check_room_auth_rule_8
    rw [hs, ht, pb e₁ e₂ d hv']
  have h9 : check_room_auth_rule_9 e₁ = check_room_auth_rule_9 e₂ := by
    unfold check_room_auth_rule_9
    simp only [jget]
    rw [hsk, hs]
  have hst : hookSite h e₁ d = hookSite h e₂ d := by
    unfold hookSite
    simp only [jget]
    rw [ht, hb.1 e₁ e₂ d hv', hb.2.1 e₁ e₂ d hv', hb.2.2.1 e₁ e₂ d hv',
      hb.2.2.2.1 e₁ e₂ d hv', hb.2.2.2.2.1 e₁ e₂ d hv',
      hb.2.2.2.2.2 e₁ e₂ d hv']
  unfold checkHook checkBody
  simp only [jget]
  rw [ht, h2, h8, h9, hst]

theorem sameView_truncAuth (e : Event) : sameView e (truncAuth e) :=
  ⟨rfl, rfl, rfl, rfl, rfl, rfl⟩

theorem authRefIdx_take (env : Env) (l : List String) (k : Nat) (hk : k < 4) :
    authRefIdx env (l.take 4) k = authRefIdx env l k := by
  unfold authRefIdx
  have hlen : k < (l.take 4).length ↔ k < l.length := by
    rw [List.length_take]; omega
  have hget : (l.take 4).getD k "" = l.getD k "" := by
    unfold List.getD
    rw [List.get?_eq_getElem?, List.get?_eq_getElem?, List.getElem?_take]
    simp [hk]
  by_cases h : k < l.length
  · rw [if_pos h, if_pos (hlen.2 h), hget]
  · rw [if_neg h, if_neg (fun hc => h (hlen.1 hc))]

theorem checkAuths_truncAuth (env : Env) (e : Event) :
    checkAuths env (truncAuth e) = checkAuths env e := by
  unfold checkAuths checkIdxs
  have h0 := authRefIdx_take env e.auth_events 0 (by omega)
  have h1 := authRefIdx_take env e.auth_events 1 (by omega)
  have h2 := authRefIdx_take env e.auth_events 2 (by omega)
  have h3 := authRefIdx_take env e.auth_events 3 (by omega)
  simp only [truncAuth] at h0 h1 h2 h3 ⊢
  rw [h0, h1, h2, h3]

/-- C9: the two-pass check bases its verdict on at most the first four
`auth_events` references plus the five present-state lookups: truncating
`auth_events` to four entries leaves the verdict unchanged (only the warning
flag may differ), the warning is logged exactly when more than four
references are present, and each pass hands at most four auth events to the
rule engine. -/
theorem checkOuter_first_four (env : Env) (h : Hooks) (pw : PowerFn)
    (e : Event) (hb : HooksBlind h) (pb : PowerBlind pw) :
    (checkOuter env h pw e).map Prod.fst =
        (checkOuter env h pw (truncAuth e)).map Prod.fst ∧
      (∀ v w, checkOuter env h pw e = .ok (v, w) →
        (w = true ↔ 4 < e.auth_events.length)) ∧
      (∀ auths : List (Option Event),
        (passOne auths).length ≤ 4 ∧ (passTwo auths).length ≤ 4) := by
  refine ⟨?_, ?_, ?_⟩
  · have hA := checkAuths_truncAuth env e
    have hsv : sameView (truncAuth e) e := ⟨rfl, rfl, rfl, rfl, rfl, rfl⟩
    have hH : ∀ l, checkHook h pw (truncAuth e) (Hookdata.make e l) =
        checkHook h pw e (Hookdata.make e l) :=
      fun l => checkHook_view h pw hb pb (truncAuth e) e hsv (Hookdata.make e l)
    have hmk : ∀ l, Hookdata.make (truncAuth e) l = Hookdata.make e l :=
      fun _ => rfl
    unfold checkOuter
    cases hro : atF "room_id" e.room_id with
    | error c =>
      have hro' : atF "room_id" (truncAuth e).room_id = .error c := hro
      simp [hro, hro', bind, Except.bind, Except.map, Functor.map, pure, Except.pure]
    | ok rid =>
      have hro' : atF "room_id" (truncAuth e).room_id = .ok rid := hro
      cases hx : checkAuths env e with
      | error c =>
        have hx' : checkAuths env (truncAuth e) = .error c := by
          rw [hA]; exact hx
        simp [hro, hro', hx, hx', bind, Except.bind, Except.map, Functor.map, pure, Except.pure]
      | ok auths =>
        have hx' : checkAuths env (truncAuth e) = .ok auths := by
          rw [hA]; exact hx
        cases hr1 : checkHook h pw e (Hookdata.make e (passOne auths)) with
        | error c =>
          have hr1' : checkHook h pw (truncAuth e)
              (Hookdata.make (truncAuth e) (passOne auths)) = .error c := by
            rw [hmk, hH]; exact hr1
          simp [hro, hro', hx, hx', hr1, hr1', bind, Except.bind, Except.map, Functor.map, pure, Except.pure]
        | ok r1 =>
          have hr1' : checkHook h pw (truncAuth e)
              (Hookdata.make (truncAuth e) (passOne auths)) = .ok r1 := by
            rw [hmk, hH]; exact hr1
          rcases Decidable.em (¬ r1.1 = true ∨ r1.2.isSome = true) with
            hcond | hcond
          · simp only [hro, hro', hx, hx', hr1, hr1', bind, Except.bind,
              Except.map, Functor.map, pure, Except.pure]
            rw [if_pos hcond, if_pos hcond]
          · simp only [hro, hro', hx, hx', hr1, hr1', bind, Except.bind,
              Except.map, Functor.map, pure, Except.pure]
            rw [if_neg hcond, if_neg hcond]
            cases hr2 : checkHook h pw e (Hookdata.make e (passTwo auths)) with
            | error c =>
              have hr2' : checkHook h pw (truncAuth e)
                  (Hookdata.make (truncAuth e) (passTwo auths)) = .error c := by
                rw [hmk, hH]; exact hr2
              rw [hr2']
            | ok r2 =>
              have hr2' : checkHook h pw (truncAuth e)
                  (Hookdata.make (truncAuth e) (passTwo auths)) = .ok r2 := by
                rw [hmk, hH]; exact hr2
              rw [hr2']
  · intro v w hok
    unfold checkOuter at hok
    cases hro : atF "room_id" e.room_id with
    | error c => rw [hro] at hok; exact Except.noConfusion hok
    | ok rid =>
      rw [hro] at hok
      cases hx : checkAuths env e with
      | error c =>
        simp only [hx, bind, Except.bind] at hok
        exact Except.noConfusion hok
      | ok auths =>
        simp only [hx, bind, Except.bind] at hok
        cases hr1 : checkHook h pw e (Hookdata.make e (passOne auths)) with
        | error c =>
          rw [hr1] at hok
          exact Except.noConfusion hok
        | ok r1 =>
          simp only [hr1, bind, Except.bind, pure, Except.pure] at hok
          rcases Decidable.em (¬ r1.1 = true ∨ r1.2.isSome = true) with
            hcond | hcond
          · rw [if_pos hcond] at hok
            simp only [Except.ok.injEq, Prod.mk.injEq] at hok
            rw [← hok.2]
            simp
          · rw [if_neg hcond] at hok
            cases hr2 : checkHook h pw e (Hookdata.make e (passTwo auths)) with
            | error c =>
              simp only [hr2] at hok
              exact Except.noConfusion hok
            | ok r2 =>
              simp only [hr2, Except.ok.injEq, Prod.mk.injEq] at hok
              rw [← hok.2]
              simp
  · intro auths
    constructor <;> simp [passOne, passTwo]

/-- An environment with nothing stored. -/
def emptyEnv : Env where
  index := fun _ => 0
  fetch := fun _ => none
  roomGet := fun _ _ => 0

/-- A message event carrying five `auth_events` references. -/
def fiveRefEvent : Event :=
  { msgEvent with auth_events := ["$1", "$2", "$3", "$4", "$5"] }

/-- Witness for `checkOuter_first_four`, instantiated with accepting hooks,
an accepting power query, an empty environment and a five-reference
event. -/
theorem checkOuter_first_four_witness :
    (checkOuter emptyEnv trivialHooks truePower fiveRefEvent).map Prod.fst =
        (checkOuter emptyEnv trivialHooks truePower
          (truncAuth fiveRefEvent)).map Prod.fst ∧
      (∀ v w,
        checkOuter emptyEnv trivialHooks truePower fiveRefEvent = .ok (v, w) →
        (w = true ↔ 4 < fiveRefEvent.auth_events.length)) ∧
      (∀ auths : List (Option Event),
        (passOne auths).length ≤ 4 ∧ (passTwo auths).length ≤ 4) :=
  checkOuter_first_four emptyEnv trivialHooks truePower fiveRefEvent
    ⟨fun _ _ _ _ => rfl, fun _ _ _ _ => rfl, fun _ _ _ _ => rfl,
      fun _ _ _ _ => rfl, fun _ _ _ _ => rfl, fun _ _ _ _ => rfl⟩
    (fun _ _ _ _ => rfl)

/-- Modelled from the spec: the locally stored events — the `_event_id`
primary index mapping event_id to a nonzero event_idx
(`m::index(…, std::nothrow)` yields 0 when absent) and the event payloads by
index (`seek(event::fetch, idx, std::nothrow)` with its `valid` flag). -/
structure Store where
  ids : List (String × Nat)
  evs : List (Nat × Event)

/-- `m::index(event_id, std::nothrow)`: the stored index of an event id, 0
when the id is not indexed. -/
def eventIndex (st : Store) (id : String) : Nat :=
  ((st.ids.find? fun p => p.1 = id).map Prod.snd).getD 0

/-- `seek(event::fetch, idx, std::nothrow)`: the stored event payload at an
index, `none` when invalid. -/
def fetchEv (st : Store) (i : Nat) : Option Event :=
  (st.evs.find? fun p => p.1 = i).map Prod.snd

/-- The resolved auth references the chain walk follows from one event
(`src/modules/m_room_auth.cc:746-752`): the first four `auth_events` entries
(`i < count && i < 4`), indexed, unindexed ones skipped. -/
def authIdxs (st : Store) (e : Event) : List Nat :=
  ((e.auth_events.take 4).map (eventIndex st)).filter (· ≠ 0)

/-- The claim's uncapped reference extractor: every `auth_events` reference
of the event, resolved through the index, unindexed ones skipped. -/
def authIdxsFull (st : Store) (e : Event) : List Nat :=
  (e.auth_events.map (eventIndex st)).filter (· ≠ 0)

/-- The inner loop of the chain walk over one event's resolved references
(`src/modules/m_room_auth.cc:753-761`): a reference not yet in `ae` is
recorded in `ae` and, when its event is stored, enqueued. -/
def processRefs (st : Store) : List Nat → List Nat → List Nat × List Nat
  | [], ae => (ae, [])
  | r :: rs, ae =>
    if r ∈ ae then processRefs st rs ae
    else
      let rest := processRefs st rs (ae ++ [r])
      (rest.1, (if (fetchEv st r).isSome then [r] else []) ++ rest.2)

/-- The breadth-first loop of `ircd::m::room::auth::chain::for_each`
(`src/modules/m_room_auth.cc:736-764`), with explicit fuel; an unstored
front of the queue is skipped.  The result is the accumulated set `ae` whose
members the source finally hands to the closure once each. -/
def chainGo (st : Store) : Nat → List Nat → List Nat → Option (List Nat)
  | _, [], ae => some ae
  | 0, _ :: _, _ => none
  | fuel + 1, q :: qs, ae =>
    match fetchEv st q with
    | none => chainGo st fuel qs ae
    | some e =>
      let p := processRefs st (authIdxs st e) ae
      chainGo st fuel (qs ++ p.2) p.1

/-- `ircd::m::room::auth::chain::for_each` (`src/modules/m_room_auth.cc:
731-771`): walk from the starting index with an empty set. -/
def chain_for_each (st : Store) (idx : Nat) (fuel : Nat) :
    Option (List Nat) :=
  chainGo st fuel [idx] []

/-- Reachability in one or more steps from `x` through stored events,
following the per-event reference extractor `f`. -/
inductive ReachVia (st : Store) (f : Event → List Nat) : Nat → Nat → Prop
  | base {x y : Nat} {e : Event} : fetchEv st x = some e → y ∈ f e →
      ReachVia st f x y
  | step {x z y : Nat} {e : Event} : ReachVia st f x z →
      fetchEv st z = some e → y ∈ f e → ReachVia st f x y

theorem processRefs_fst_mem (st : Store) :
    ∀ (rs ae : List Nat) (y : Nat),
      y ∈ (processRefs st rs ae).1 ↔ y ∈ ae ∨ y ∈ rs
  | [], ae, y => by simp [processRefs]
  | r :: rs, ae, y => by
    unfold processRefs
    by_cases hr : r ∈ ae
    · rw [if_pos hr, processRefs_fst_mem st rs ae y]
      constructor
      · rintro (h | h)
        · exact Or.inl h
        · exact Or.inr (by simp [h])
      · rintro (h | h)
        · exact Or.inl h
        · rcases List.mem_cons.1 h with h | h
          · exact Or.inl (h ▸ hr)
          · exact Or.inr h
    · rw [if_neg hr]
      simp only
      rw [processRefs_fst_mem st rs (ae ++ [r]) y]
      simp [List.mem_append, List.mem_cons, or_assoc]

theorem processRefs_snd_spec (st : Store) :
    ∀ (rs ae : List Nat) (y : Nat),
      y ∈ (processRefs st rs ae).2 →
        y ∈ rs ∧ (fetchEv st y).isSome ∧ y ∈ (processRefs st rs ae).1
  | [], ae, y => by simp [processRefs]
  | r :: rs, ae, y => by
    unfold processRefs
    by_cases hr : r ∈ ae
    · rw [if_pos hr]
      intro hy
      obtain ⟨h1, h2, h3⟩ := processRefs_snd_spec st rs ae y hy
      exact ⟨by simp [h1], h2, h3⟩
    · rw [if_neg hr]
      simp only [List.mem_append]
      intro hy
      rcases hy with hy | hy
      · by_cases hst : (fetchEv st r).isSome
        · rw [if_pos hst] at hy
          simp only [List.mem_singleton] at hy
          subst hy
          refine ⟨by simp, hst, ?_⟩
          rw [processRefs_fst_mem]
          exact Or.inl (by simp)
        · rw [if_neg hst] at hy
          simp at hy
      · obtain ⟨h1, h2, h3⟩ := processRefs_snd_spec st rs (ae ++ [r]) y hy
        exact ⟨by simp [h1], h2, h3⟩

theorem processRefs_new_stored_queued (st : Store) :
    ∀ (rs ae : List Nat) (y : Nat),
      y ∈ (processRefs st rs ae).1 → y ∉ ae → (fetchEv st y).isSome →
        y ∈ (processRefs st rs ae).2
  | [], ae, y => fun h1 h2 _ => absurd (by simpa [processRefs] using h1) h2
  | r :: rs, ae, y => by
    unfold processRefs
    by_cases hr : r ∈ ae
    · rw [if_pos hr]
      exact processRefs_new_stored_queued st rs ae y
    · rw [if_neg hr]
      simp only [List.mem_append]
      intro hy hnae hst
      by_cases hyr : y = r
      · subst hyr
        rw [if_pos hst]
        exact Or.inl (by simp)
      · have hy1 : y ∈ (processRefs st rs (ae ++ [r])).1 := hy
        have hnae' : y ∉ ae ++ [r] := by
          simp [List.mem_append, hnae, hyr]
        exact Or.inr (processRefs_new_stored_queued st rs (ae ++ [r]) y
          hy1 hnae' hst)

theorem processRefs_fst_nodup (st : Store) :
    ∀ (rs ae : List Nat), ae.Nodup → (processRefs st rs ae).1.Nodup
  | [], ae => by simp [processRefs]
  | r :: rs, ae => by
    unfold processRefs
    by_cases hr : r ∈ ae
    · rw [if_pos hr]
      exact processRefs_fst_nodup st rs ae
    · rw [if_neg hr]
      intro hnd
      exact processRefs_fst_nodup st rs (ae ++ [r])
        (by simp [List.nodup_append, hnd, hr])

theorem chainGo_spec (st : Store) (root : Nat) :
    ∀ (fuel : Nat) (aq ae res : List Nat),
      chainGo st fuel aq ae = some res →
      (∀ z ∈ aq, z = root ∨ ReachVia st (authIdxs st) root z) →
      (∀ y ∈ ae, ReachVia st (authIdxs st) root y) →
      (∀ y, (y ∈ ae ∨ y = root) → ∀ e, fetchEv st y = some e →
        y ∈ aq ∨ ∀ w ∈ authIdxs st e, w ∈ ae) →
      ae.Nodup →
      res.Nodup ∧ (∀ y ∈ res, ReachVia st (authIdxs st) root y) ∧
        (∀ y, (y ∈ res ∨ y = root) → ∀ e, fetchEv st y = some e →
          ∀ w ∈ authIdxs st e, w ∈ res) := by
  intro fuel
  induction fuel with
  | zero =>
    intro aq ae res h hJ2 hJ1 hJ3 hnd
    cases aq with
    | nil =>
      simp only [chainGo, Option.some_inj] at h
      subst h
      refine ⟨hnd, hJ1, ?_⟩
      intro y hy e hfe w hw
      rcases hJ3 y hy e hfe with hq | hcl
      · exact absurd hq (by simp)
      · exact hcl w hw
    | cons q qs => exact absurd h (by simp [chainGo])
  | succ fuel ih =>
    intro aq ae res h hJ2 hJ1 hJ3 hnd
    cases aq with
    | nil =>
      simp only [chainGo, Option.some_inj] at h
      subst h
      refine ⟨hnd, hJ1, ?_⟩
      intro y hy e hfe w hw
      rcases hJ3 y hy e hfe with hq | hcl
      · exact absurd hq (by simp)
      · exact hcl w hw
    | cons q qs =>
      simp only [chainGo] at h
      cases hq : fetchEv st q with
      | none =>
        rw [hq] at h
        refine ih qs ae res h (fun z hz => hJ2 z (by simp [hz])) hJ1 ?_ hnd
        intro y hy e hfe
        rcases hJ3 y hy e hfe with hmem | hcl
        · rcases List.mem_cons.1 hmem with hyq | hyqs
          · subst hyq
            rw [hq] at hfe
            exact Option.noConfusion hfe
          · exact Or.inl hyqs
        · exact Or.inr hcl
      | some eq =>
        rw [hq] at h
        have hqreach : ∀ w ∈ authIdxs st eq,
            ReachVia st (authIdxs st) root w := by
          intro w hw
          rcases hJ2 q (by simp) with hroot | hreach
          · exact ReachVia.base (hroot ▸ hq) hw
          · exact ReachVia.step hreach hq hw
        refine ih _ _ _ h ?_ ?_ ?_
          (processRefs_fst_nodup st (authIdxs st eq) ae hnd)
        · intro z hz
          rcases List.mem_append.1 hz with hz | hz
          · exact hJ2 z (by simp [hz])
          · exact Or.inr (hqreach z (processRefs_snd_spec st _ ae z hz).1)
        · intro y hy
          rcases (processRefs_fst_mem st _ ae y).1 hy with hy | hy
          · exact hJ1 y hy
          · exact hqreach y hy
        · intro y hy e hfe
          by_cases hyae : y ∈ ae ∨ y = root
          · rcases hJ3 y hyae e hfe with hmem | hcl
            · rcases List.mem_cons.1 hmem with hyq | hyqs
              · subst hyq
                rw [hq] at hfe
                have heq : eq = e := Option.some_inj.1 hfe
                subst heq
                refine Or.inr ?_
                intro w hw
                rw [processRefs_fst_mem]
                exact Or.inr hw
              · exact Or.inl (List.mem_append.2 (Or.inl hyqs))
            · refine Or.inr ?_
              intro w hw
              rw [processRefs_fst_mem]
              exact Or.inl (hcl w hw)
          · push_neg at hyae
            rcases hy with hy | hy
            · have hnew : y ∈ (processRefs st (authIdxs st eq) ae).2 :=
                processRefs_new_stored_queued st _ ae y hy hyae.1
                  (by rw [hfe]; rfl)
              exact Or.inl (List.mem_append.2 (Or.inr hnew))
            · exact absurd hy hyae.2

theorem reach_subset (st : Store) (root : Nat) (res : List Nat)
    (hclosed : ∀ y, (y ∈ res ∨ y = root) → ∀ e, fetchEv st y = some e →
      ∀ w ∈ authIdxs st e, w ∈ res) :
    ∀ y, ReachVia st (authIdxs st) root y → y ∈ res := by
  intro y hy
  induction hy with
  | base hx hmem => exact hclosed _ (Or.inr rfl) _ hx _ hmem
  | step _ hz hmem ih => exact hclosed _ (Or.inl ih) _ hz _ hmem

/-- C7, amended: when the chain walk terminates within its fuel, the set it
enumerates is exactly the transitive closure of the locally stored auth
references reachable from the starting event following at most the first
four `auth_events` entries of each stored event, and the enumeration is
deduplicated (each event_idx appears once). -/
theorem chain_for_each_spec (st : Store) (idx : Nat) (fuel : Nat)
    (res : List Nat) (h : chain_for_each st idx fuel = some res) :
    res.Nodup ∧ ∀ y, y ∈ res ↔ ReachVia st (authIdxs st) idx y := by
  have hspec := chainGo_spec st idx fuel [idx] [] res h
    (by intro z hz; simp at hz; exact Or.inl hz)
    (by intro y hy; simp at hy)
    (by
      intro y hy e hfe
      rcases hy with hy | hy
      · simp at hy
      · exact Or.inl (by simp [hy]))
    (by simp)
  obtain ⟨hnd, hsound, hclosed⟩ := hspec
  exact ⟨hnd, fun y =>
    ⟨hsound y, reach_subset st idx res hclosed y⟩⟩

/-- The starting event of the chain counterexample: five auth references,
all indexed, none of the referenced events stored further. -/
def chainRoot : Event :=
  { event_id := some "$r", auth_events := ["$a", "$b", "$c", "$d", "$e"] }

/-- A store holding `chainRoot` at index 1 and indexing its five references
as 2..6. -/
def chainStore : Store where
  ids := [("$a", 2), ("$b", 3), ("$c", 4), ("$d", 5), ("$e", 6)]
  evs := [(1, chainRoot)]

/-- C7 counterexample: the walk from event 1 enumerates only the first four
resolved references 2..5, although index 6 is in the transitive closure of
the event's auth_events references — the fifth reference is ignored. -/
theorem chain_fifth_reference_counterexample :
    chain_for_each chainStore 1 10 = some [2, 3, 4, 5] ∧
      ReachVia chainStore (authIdxsFull chainStore) 1 6 ∧
      6 ∉ ([2, 3, 4, 5] : List Nat) :=
  ⟨by decide, ReachVia.base (e := chainRoot) (by decide) (by decide),
    by decide⟩

/-- Witness for `chain_for_each_spec`: instantiated on the concrete store,
where the walk returns the deduplicated set `[2, 3, 4, 5]`. -/
theorem chain_for_each_spec_witness :
    ([2, 3, 4, 5] : List Nat).Nodup ∧
      ∀ y, y ∈ ([2, 3, 4, 5] : List Nat) ↔
        ReachVia chainStore (authIdxs chainStore) 1 y :=
  chain_for_each_spec chainStore 1 10 [2, 3, 4, 5] (by decide)

/-- The mxid sigil kinds (`src/ircd/matrix.cc:1118-1130`): EVENT `$`,
USER `@`, ALIAS `#`, ROOM `!`. -/
inductive Sigil where
  | EVENT
  | USER
  | ALIAS
  | ROOM
  deriving Repr, DecidableEq

/-- The sigil character (`src/ircd/matrix.cc:1118-1130`). -/
def sigilChar : Sigil → Char
  | .EVENT => '$'
  | .USER => '@'
  | .ALIAS => '#'
  | .ROOM => '!'

/-- Decimal rendering padded to six digits, the `%06d` of the microsecond
component. -/
def pad6 (n : Nat) : String :=
  String.mk (List.replicate (6 - (toString n).length) '0') ++ toString n

/-- `ircd::m::id::generate_random_prefixed` (`src/ircd/matrix.cc:1086-1095`):
the sigil character, the prefix, and a random 32-bit integer in decimal;
`rnd` stands for `rand::integer()`. -/
def generate_random_prefixed (s : Sigil) (pfx : String) (rnd : Nat) :
    String :=
  String.singleton (sigilChar s) ++ pfx ++ toString (rnd % 2 ^ 32)

/-- `ircd::m::id::generate_random_timebased` (`src/ircd/matrix.cc:
1097-1105`): the sigil character, the seconds, and the microseconds
zero-padded to six digits; `sec`/`usec` stand for `microtime()`. -/
def generate_random_timebased (s : Sigil) (sec usec : Nat) : String :=
  String.singleton (sigilChar s) ++ toString sec ++ pad6 (usec % 1000000)

/-- The mxid generator constructor `id::id(sigil, buf, max, generate_t,
host)` (`src/ircd/matrix.cc:1010-1043`): USER takes the random guest
localpart, ALIAS the random localpart with empty prefix, every other sigil
(ROOM, EVENT) the time-based localpart; the result is the localpart, a
colon and the host (`"%s:%s"`). -/
def id_generate (s : Sigil) (host : String) (rnd sec usec : Nat) : String :=
  (match s with
    | .USER => generate_random_prefixed .USER "guest" rnd
    | .ALIAS => generate_random_prefixed .ALIAS "" rnd
    | _ => generate_random_timebased s sec usec) ++ ":" ++ host

/-- C8, amended: the generator constructor produces, for ROOM and EVENT, a
time-based (second/microsecond) localpart; for USER, a random guest
localpart; and for ALIAS, a random localpart with empty prefix — not a
caller-supplied one; in each case the result is the sigil-prefixed
localpart followed by a colon and the given host. -/
theorem id_generate_spec (host : String) (rnd sec usec : Nat) :
    id_generate .ROOM host rnd sec usec =
        String.singleton '!' ++ toString sec ++ pad6 (usec % 1000000) ++
          ":" ++ host ∧
      id_generate .EVENT host rnd sec usec =
        String.singleton '$' ++ toString sec ++ pad6 (usec % 1000000) ++
          ":" ++ host ∧
      id_generate .USER host rnd sec usec =
        String.singleton '@' ++ "guest" ++ toString (rnd % 2 ^ 32) ++
          ":" ++ host ∧
      id_generate .ALIAS host rnd sec usec =
        String.singleton '#' ++ "" ++ toString (rnd % 2 ^ 32) ++
          ":" ++ host :=
  ⟨rfl, rfl, rfl, rfl⟩

/-- C8 counterexample: the ALIAS result of the generator constructor varies
with the random value (and the constructor has no localpart parameter), so
the ALIAS localpart is random, not caller-supplied. -/
theorem id_generate_alias_counterexample :
    id_generate .ALIAS "h" 1 0 0 ≠ id_generate .ALIAS "h" 2 0 0 ∧
      id_generate .ALIAS "h" 1 0 0 = "#1:h" := by
  decide

/-- The room member stream: the room's events in `event_id in room_id`
index order.  `ircd::m::room::is_member` (`src/ircd/matrix.cc:343-373`):
query the stream filtered on type `m.room.member` and the user's state key
(the `where::equal` cursor filter is not under src/ and is modelled from
the spec), stopping at the first match, whose content membership is
compared with the requested one. -/
def is_member (evs : List Event) (user_id mem : String) : Bool :=
  match evs.find? fun e =>
      jget e.type = "m.room.member" ∧ jget e.state_key = user_id with
  | some e => e.membership = mem
  | none => false

/-- The member state event `room::membership` sends
(`src/ircd/matrix.cc:331-340`): type `m.room.member`, state key and sender
the user id, the requested membership in content. -/
def memberEvent (user_id mem : String) : Event :=
  { type := some "m.room.member", state_key := some user_id,
    sender := some user_id, membership := mem }

/-- `ircd::m::room::membership` (`src/ircd/matrix.cc:310-341`): throw
`ALREADY_MEMBER` when `is_member` answers yes, else send the member
event. -/
def room_membership (evs : List Event) (user_id mem : String) :
    Except String Event :=
  if is_member evs user_id mem then .error "ALREADY_MEMBER"
  else .ok (memberEvent user_id mem)

/-- `ircd::m::room::join` (`src/ircd/matrix.cc:286-296`). -/
def room_join (evs : List Event) (user_id : String) : Except String Event :=
  room_membership evs user_id "join"

/-- `ircd::m::room::leave` (`src/ircd/matrix.cc:298-308`). -/
def room_leave (evs : List Event) (user_id : String) : Except String Event :=
  room_membership evs user_id "leave"

/-- Modelled from the spec: the user's existing `m.room.member` state in
the room — state is a cell map where later writes overwrite the cell, so
the latest member event for the user is authoritative. -/
def current_member_state (evs : List Event) (user_id : String) :
    Option String :=
  ((evs.filter fun e =>
      jget e.type = "m.room.member" ∧ jget e.state_key = user_id).getLast?).map
    Event.membership

/-- C10, amended: `room::membership` throws ALREADY_MEMBER and sends no
event exactly when the first `m.room.member` event for the user in the
room's event index order records the requested membership value — not the
latest (current) one; otherwise an `m.room.member` state event with state
key equal to the user id is sent. -/
theorem room_membership_first_match (evs : List Event) (u m : String) :
    room_membership evs u m =
        (match evs.find? fun e =>
            jget e.type = "m.room.member" ∧ jget e.state_key = u with
          | some e =>
            if e.membership = m then .error "ALREADY_MEMBER"
            else .ok (memberEvent u m)
          | none => .ok (memberEvent u m)) ∧
      (memberEvent u m).state_key = some u ∧
      (memberEvent u m).type = some "m.room.member" ∧
      room_join evs u = room_membership evs u "join" ∧
      room_leave evs u = room_membership evs u "leave" := by
  refine ⟨?_, rfl, rfl, rfl, rfl⟩
  unfold room_membership is_member
  cases hf : evs.find? fun e =>
      jget e.type = "m.room.member" ∧ jget e.state_key = u with
  | none => simp
  | some e =>
    by_cases hm : e.membership = m
    · simp [hm]
    · simp [hm]

/-- A member event recording the join of `@u:x`. -/
def joinA : Event :=
  { type := some "m.room.member", state_key := some "@u:x",
    sender := some "@u:x", membership := "join", event_id := some "$1:x",
    room_id := some "!r:x" }

/-- A later member event recording that `@u:x` left. -/
def leaveA : Event :=
  { type := some "m.room.member", state_key := some "@u:x",
    sender := some "@u:x", membership := "leave", event_id := some "$2:x",
    room_id := some "!r:x" }

/-- C10 counterexample: with a join then a leave stored for `@u:x`, the
user's existing member state records `leave`, yet requesting `leave` does
not throw ALREADY_MEMBER — the code compares against the first indexed
member event (the join), not the current state — and an event is sent. -/
theorem room_membership_latest_counterexample :
    current_member_state [joinA, leaveA] "@u:x" = some "leave" ∧
      room_membership [joinA, leaveA] "@u:x" "leave" ≠
        .error "ALREADY_MEMBER" ∧
      room_membership [joinA, leaveA] "@u:x" "leave" =
        .ok (memberEvent "@u:x" "leave") := by
  decide

/-- One cell write of a transaction: column name, key and value. -/
structure Delta where
  col : String
  key : String
  val : String
  deriving Repr, DecidableEq

/-- The database as the history of applied cell writes, most recent first;
a read returns the most recent write of the cell. -/
abbrev DB := List Delta

/-- A point read of one cell. -/
def dbGet (db : DB) (col key : String) : Option String :=
  (db.find? fun d => d.col = col ∧ d.key = key).map Delta.val

/-- Modelled from the spec: atomic write-batch application.  The deltas are
appended to a `rocksdb::WriteBatch` and committed by a single `Write`, as
`db::column::operator()(const delta *, const delta *, const sopts &)` does
(`src/ircd/db.cc:1971-1995`); later entries of the batch shadow earlier
ones and the whole batch becomes visible as one unit. -/
def applyBatch (db : DB) (b : List Delta) : DB :=
  b.reverse ++ db

/-- Modelled from the spec: `db::iov::append {txn, event_id, iov}` enqueues
each event member into its field column keyed by the event id (the
column-per-field payload schema; `db::iov` is not under src/). -/
def fieldDeltas (e : Event) (eid : String) : List Delta :=
  [⟨"event_id", eid, eid⟩, ⟨"type", eid, jget e.type⟩,
   ⟨"sender", eid, jget e.sender⟩, ⟨"state_key", eid, jget e.state_key⟩,
   ⟨"room_id", eid, jget e.room_id⟩, ⟨"content", eid, e.membership⟩]

/-- `ircd::m::append_indexes` (`src/ircd/matrix.cc:741-934`): the four
registered indexers `concat("event_id","sender")`,
`concat("event_id","room_id")`, `concat_v("event_id","room_id","type")` and
`concat_2v("event_id","type","state_key","room_id")`, each appending one
delta whose key is the `strlcat` of the named member values.  The
`indexers` std::set iterates in unspecified pointer order; the order here
is immaterial since the four columns are distinct. -/
def append_indexes (e : Event) : List Delta :=
  [⟨"event_id in sender", jget e.sender ++ jget e.event_id, ""⟩,
   ⟨"event_id in room_id", jget e.room_id ++ jget e.event_id, ""⟩,
   ⟨"event_id for room_id in type", jget e.type ++ jget e.room_id,
     jget e.event_id⟩,
   ⟨"event_id for type,state_key in room_id",
     jget e.room_id ++ ".." ++ jget e.type ++ jget e.state_key,
     jget e.event_id⟩]

/-- The single transaction `event::insert` builds
(`src/ircd/matrix.cc:688-698`): the payload cells followed by every derived
index row, in one `db::iov`. -/
def insert_txn (e : Event) (gen : String) : List Delta :=
  let eid := e.event_id.getD gen
  let e' := { e with event_id := some eid }
  fieldDeltas e' eid ++ append_indexes e'

/-- `ircd::m::event::insert` (`src/ircd/matrix.cc:659-703`): fill in a
generated event id when absent (`gen` stands for the time-based id), require
`type` and `sender`, build the transaction and commit it with a single
`txn(*event::events)` call. -/
def event_insert (db : DB) (e : Event) (gen : String) : Except String DB :=
  if e.type.isNone then .error "Required event field: type"
  else if e.sender.isNone then .error "Required event field: sender"
  else .ok (applyBatch db (insert_txn e gen))

/-- Pairwise-distinct column names within a batch. -/
def distinctCols (b : List Delta) : Prop :=
  b.Pairwise fun d1 d2 => d1.col ≠ d2.col

theorem find?_append_some {α : Type} {p : α → Bool} {l1 l2 : List α} {a : α}
    (h : l1.find? p = some a) : (l1 ++ l2).find? p = some a := by
  induction l1 with
  | nil => simp [List.find?] at h
  | cons x xs ih =>
    rw [List.cons_append]
    cases hp : p x with
    | true =>
      rw [List.find?_cons_of_pos _ hp] at h ⊢
      exact h
    | false =>
      rw [List.find?_cons_of_neg _ (by simp [hp])] at h ⊢
      exact ih h

theorem find?_cell_self (b : List Delta) (hb : distinctCols b) (d : Delta)
    (hd : d ∈ b) :
    (b.find? fun x => x.col = d.col ∧ x.key = d.key) = some d := by
  induction b with
  | nil => simp at hd
  | cons x xs ih =>
    rcases List.mem_cons.1 hd with hdx | hdxs
    · subst hdx
      rw [List.find?_cons_of_pos _ (by simp)]
    · have hx : x.col ≠ d.col :=
        (List.pairwise_cons.1 hb).1 d hdxs
      rw [List.find?_cons_of_neg _ (by simp [hx])]
      exact ih (List.pairwise_cons.1 hb).2 hdxs

theorem dbGet_applyBatch_mem (db : DB) (b : List Delta)
    (hb : distinctCols b) (d : Delta) (hd : d ∈ b) :
    dbGet (applyBatch db b) d.col d.key = some d.val := by
  unfold dbGet applyBatch
  have hrev : distinctCols b.reverse := by
    unfold distinctCols at hb ⊢
    rw [List.pairwise_reverse]
    exact hb.imp fun h => h.symm
  rw [find?_append_some (find?_cell_self b.reverse hrev d (by simp [hd]))]
  rfl

theorem insert_txn_distinct (e : Event) (gen : String) :
    distinctCols (insert_txn e gen) := by
  unfold insert_txn fieldDeltas append_indexes distinctCols
  simp [List.pairwise_cons]

/-- C4: inserting an event enqueues the payload cells and every derived
index row into a single batch applied as one unit, and a reader at either
visible snapshot (before or after the single commit) sees all of these
cell writes or none of them. -/
theorem event_insert_atomic (db : DB) (e : Event) (gen : String) (db' : DB)
    (h : event_insert db e gen = .ok db') :
    db' = applyBatch db (insert_txn e gen) ∧
      ∀ s, s = db ∨ s = db' →
        (∀ d ∈ insert_txn e gen, dbGet s d.col d.key = some d.val) ∨
        (∀ d ∈ insert_txn e gen, dbGet s d.col d.key = dbGet db d.col d.key) := by
  have hdb : db' = applyBatch db (insert_txn e gen) := by
    unfold event_insert at h
    by_cases h1 : e.type.isNone
    · rw [if_pos h1] at h
      exact Except.noConfusion h
    · rw [if_neg h1] at h
      by_cases h2 : e.sender.isNone
      · rw [if_pos h2] at h
        exact Except.noConfusion h
      · rw [if_neg h2] at h
        exact (Option.some_inj.1 (congrArg Except.toOption h)).symm
  refine ⟨hdb, ?_⟩
  rintro s (hs | hs)
  · subst hs
    exact Or.inr fun d _ => rfl
  · subst hs
    rw [hdb]
    exact Or.inl fun d hd =>
      dbGet_applyBatch_mem db (insert_txn e gen)
        (insert_txn_distinct e gen) d hd

/-- Witness for `event_insert_atomic`: inserting the concrete message event
into the empty database. -/
theorem event_insert_atomic_witness :
    event_insert [] msgEvent "$g:x" =
        .ok (applyBatch [] (insert_txn msgEvent "$g:x")) ∧
      (applyBatch [] (insert_txn msgEvent "$g:x") =
          applyBatch [] (insert_txn msgEvent "$g:x") ∧
        ∀ s, s = ([] : DB) ∨
            s = applyBatch [] (insert_txn msgEvent "$g:x") →
          (∀ d ∈ insert_txn msgEvent "$g:x",
            dbGet s d.col d.key = some d.val) ∨
          (∀ d ∈ insert_txn msgEvent "$g:x",
            dbGet s d.col d.key = dbGet [] d.col d.key)) :=
  ⟨by decide,
    event_insert_atomic [] msgEvent "$g:x"
      (applyBatch [] (insert_txn msgEvent "$g:x")) (by decide)⟩

/-- An iterator position operation (`ircd::db::pos`): seek to a key, step,
or seek to an end. -/
inductive Pos where
  | key (k : Nat)
  | next
  | prev
  | front
  | back

/-- Modelled from the spec: RocksDB iterator semantics over the column's
ordered key set, as `_seek_` (`src/ircd/db.cc:2396-2412`) maps `pos` onto
Seek/Next/Prev/SeekToFirst/SeekToLast.  The iterator state is its current
key, `none` when invalid; a key seek lands on the first key not below the
target. -/
def seekTrue (keys : List Nat) (cur : Option Nat) : Pos → Option Nat
  | .key k => keys.find? fun x => k ≤ x
  | .next =>
    match cur with
    | some c => keys.find? fun x => c < x
    | none => none
  | .prev =>
    match cur with
    | some c => (keys.filter fun x => x < c).getLast?
    | none => none
  | .front => keys.head?
  | .back => keys.getLast?

/-- Modelled from the spec: the non-blocking read tier — when the block
holding the resulting key is not in cache the engine signals `incomplete`
(`none` here) and the caller's iterator keeps its previous state; an
invalid (end) result needs no block. -/
def seekNB (cache keys : List Nat) (cur : Option Nat) (p : Pos) :
    Option (Option Nat) :=
  match seekTrue keys cur p with
  | some k => if k ∈ cache then some (some k) else none
  | none => some (none : Option Nat)

/-- The `ctx::offload` body (`src/ircd/db.cc:2350-2361`): when the caller's
iterator is still valid the blocking iterator is first seated at its key;
then, unless that left the blocking iterator invalid, the position itself is
re-issued on the blocking tier. -/
def seekOffload (keys : List Nat) (it : Option Nat) (p : Pos) : Option Nat :=
  let b1 : Option Nat :=
    match it with
    | some k => seekTrue keys none (.key k)
    | none => none
  if it.isNone ∨ b1.isSome then seekTrue keys b1 p else b1

/-- `ircd::db::seek(database::column &, const pos &, rocksdb::ReadOptions &,
std::unique_ptr<rocksdb::Iterator> &)` (`src/ircd/db.cc:2307-2394`): a
non-blocking seek; on `incomplete` the read is re-issued on the blocking
tier inside `ctx::offload`, an invalid blocking result is propagated to the
caller's iterator, and a valid one re-seats the caller's freshly reset
iterator by a non-blocking seek to the blocking iterator's key, recursing
into this very procedure.  The schedule lists the cache contents at each
attempt; an exhausted schedule is a run that has not terminated. -/
def seekProc (keys : List Nat) :
    List (List Nat) → Option Nat → Pos → Option (Bool × Option Nat)
  | [], _, _ => none
  | cache :: sched, it, p =>
    match seekNB cache keys it p with
    | some r => some (r.isSome, r)
    | none =>
      match seekOffload keys it p with
      | none => some (false, none)
      | some kb => seekProc keys sched none (.key kb)

theorem getLast?_mem {α : Type} (l : List α) (a : α)
    (h : l.getLast? = some a) : a ∈ l := by
  obtain ⟨hne, heq⟩ := List.mem_getLast?_eq_getLast (Option.mem_def.2 h)
  rw [heq]
  exact List.getLast_mem hne

theorem seekTrue_mem (keys : List Nat) (cur : Option Nat) (p : Pos)
    (k : Nat) (h : seekTrue keys cur p = some k) : k ∈ keys := by
  cases p with
  | key t => exact List.mem_of_find?_eq_some h
  | next =>
    cases cur with
    | none => exact Option.noConfusion h
    | some c => exact List.mem_of_find?_eq_some h
  | prev =>
    cases cur with
    | none => exact Option.noConfusion h
    | some c => exact (List.mem_filter.1 (getLast?_mem _ _ h)).1
  | front =>
    unfold seekTrue at h
    cases keys with
    | nil => exact Option.noConfusion h
    | cons x xs =>
      simp only [List.head?_cons, Option.some_inj] at h
      simp [← h]
  | back => exact getLast?_mem _ _ h

theorem sorted_find?_self (keys : List Nat) (hs : List.Sorted (· < ·) keys)
    (k : Nat) (hk : k ∈ keys) : (keys.find? fun x => k ≤ x) = some k := by
  induction keys with
  | nil => simp at hk
  | cons a tl ih =>
    rcases List.mem_cons.1 hk with hka | hktl
    · subst hka
      rw [List.find?_cons_of_pos _ (by simp)]
    · have halt : a < k := (List.sorted_cons.1 hs).1 k hktl
      rw [List.find?_cons_of_neg _ (by simp; omega)]
      exact ih (List.sorted_cons.1 hs).2 hktl

/-- C5: whenever the seek procedure terminates within its schedule, the
result delivered to the caller — validity flag and final iterator key —
equals what one blocking seek from the same iterator state to the same
position would produce; an invalid blocking result is propagated. -/
theorem seekProc_equals_blocking (keys : List Nat)
    (hs : List.Sorted (· < ·) keys) :
    ∀ (sched : List (List Nat)) (it : Option Nat) (p : Pos),
      (∀ k, it = some k → k ∈ keys) →
      ∀ (v : Bool) (r : Option Nat),
        seekProc keys sched it p = some (v, r) →
        r = seekTrue keys it p ∧ v = r.isSome
  | [], it, p => by
    intro _ v r h
    exact Option.noConfusion h
  | cache :: sched, it, p => by
    intro hit v r h
    unfold seekProc at h
    cases hnb : seekNB cache keys it p with
    | some r0 =>
      rw [hnb] at h
      have hr0 : r0 = seekTrue keys it p := by
        unfold seekNB at hnb
        cases ht : seekTrue keys it p with
        | none => simp only [ht] at hnb; simpa using (Option.some_inj.1 hnb).symm
        | some k =>
          simp only [ht] at hnb
          by_cases hc : k ∈ cache
          · rw [if_pos hc] at hnb
            simpa using (Option.some_inj.1 hnb).symm
          · rw [if_neg hc] at hnb
            exact Option.noConfusion hnb
      have h' : (r0.isSome, r0) = (v, r) := Option.some_inj.1 h
      have hv : r0.isSome = v := congrArg Prod.fst h'
      have hr : r0 = r := congrArg Prod.snd h'
      refine ⟨hr ▸ hr0, ?_⟩
      rw [← hv, ← hr]
    | none =>
      rw [hnb] at h
      have hmiss : ∃ k0, seekTrue keys it p = some k0 := by
        unfold seekNB at hnb
        cases ht : seekTrue keys it p with
        | none => simp only [ht] at hnb; exact Option.noConfusion hnb
        | some k => exact ⟨k, rfl⟩
      obtain ⟨k0, hk0⟩ := hmiss
      have hb2 : seekOffload keys it p = some k0 := by
        unfold seekOffload
        cases it with
        | none => simpa using hk0
        | some k =>
          have hk : k ∈ keys := hit k rfl
          have hb1 : seekTrue keys none (.key k) = some k := by
            unfold seekTrue
            exact sorted_find?_self keys hs k hk
          simp only [hb1]
          rw [if_pos (by simp)]
          exact hk0
      rw [hb2] at h
      have hk0mem : k0 ∈ keys := seekTrue_mem keys it p k0 hk0
      obtain ⟨hr2, hv2⟩ := seekProc_equals_blocking keys hs sched none
        (.key k0) (fun _ hk => Option.noConfusion hk) v r h
      have hfind : seekTrue keys none (.key k0) = some k0 := by
        unfold seekTrue
        exact sorted_find?_self keys hs k0 hk0mem
      rw [hfind] at hr2
      refine ⟨?_, hv2⟩
      rw [hr2, hk0]

/-- Witness for `seekProc_equals_blocking`: keys 1,3,5, a first attempt
with an empty cache (incomplete, offloaded) and a second attempt with key 3
cached; the delivered result equals the blocking seek to key 2. -/
theorem seekProc_equals_blocking_witness :
    (some 3 : Option Nat) = seekTrue [1, 3, 5] none (.key 2) ∧
      true = (some 3 : Option Nat).isSome :=
  seekProc_equals_blocking [1, 3, 5] (by decide) [[], [3]] none (.key 2)
    (fun _ hk => Option.noConfusion hk) true (some 3) (by decide)

/--
`ircd::m::room::auth::is_power_event` (`src/modules/m_room_auth.cc:472-501`),
line by line.
-/
def is_power_event (e : Event) : Bool :=
  if jget e.type = "" then false
  else if jget e.type = "m.room.create" then true
  else if jget e.type = "m.room.power_levels" then true
  else if jget e.type = "m.room.join_rules" then true
  else if jget e.type ≠ "m.room.member" then false
  else if jget e.sender = "" ∨ jget e.state_key = "" then false
  else if jget e.sender = jget e.state_key then false
  else if e.membership = "leave" ∨ e.membership = "ban" then true
  else false

/-- The "power event" classification as the specification words it: create,
power_levels, join_rules, and any member event that is a leave/ban where the
sender differs from the target; events without a type or member events
lacking sender or state key are not power events. -/
def IsPowerEventSpec (e : Event) : Prop :=
  (jget e.type = "m.room.create" ∨
   jget e.type = "m.room.power_levels" ∨
   jget e.type = "m.room.join_rules") ∨
  (jget e.type = "m.room.member" ∧
   (e.membership = "leave" ∨ e.membership = "ban") ∧
   jget e.sender ≠ "" ∧ jget e.state_key ≠ "" ∧
   jget e.sender ≠ jget e.state_key)

/-- C6: `is_power_event` returns true exactly for create, power_levels and
join_rules events, and for member events whose membership is leave or ban
with sender different from the state-key target; all other events, including
those without a type and member events lacking sender or state key, are not
power events. -/
theorem is_power_event_iff (e : Event) :
    is_power_event e = true ↔ IsPowerEventSpec e := by
  unfold is_power_event IsPowerEventSpec
  split_ifs with h1 h2 h3 h4 h5 h6 h7 h8 <;>
    simp_all <;> tauto

end Construct
